import Mathlib

/-!
# syscall_count: the windowed syscall aggregator of `main.go`

A shallow embedding of `syscallAggregator` (its `counts` map, `addSyscall`,
`emitJSON`, the ticker loop of `start`, `stop`) and of `main`, followed by the
properties of the specification that can be settled on it.

Conventions.
* Go `int` is the 64-bit two's-complement integer of the platforms the gadget
  runs on; it is an `Int` wrapped by `wrapInt` after every arithmetic step.
* `map[string]int` is an association list; the operations of the program keep
  its keys distinct, and the order of the list is not observable (lookups go
  through `mapGet?`, emission sorts the keys as `json.Marshal` does).
* Library functions that are not part of the repository
  (`syscalls.GetSyscallNameByNumber`, `time.ParseDuration`, the gadget runtime
  behind `do`) are parameters of the definitions that call them.
-/

set_option maxRecDepth 100000

namespace SyscallCount

/-! ## Machine integers -/

/-- Width of Go `int` on linux/amd64 and linux/arm64. -/
def intBits : Nat := 64

/-- Two's-complement wrap-around of Go `int` arithmetic. -/
def wrapInt (x : Int) : Int :=
  (x + 2 ^ (intBits - 1)) % 2 ^ intBits - 2 ^ (intBits - 1)

/-! ## `map[string]int` -/

/-- Go `map[string]int` as an association list. -/
abbrev CountMap := List (String × Int)

/-- Lookup with presence (`v, ok := m[k]`). -/
def mapGet? : CountMap → String → Option Int
  | [], _ => none
  | (k', v) :: t, k => if k' = k then some v else mapGet? t k

/-- Go index expression `m[k]`: the zero value when the key is absent. -/
def mapIndex (m : CountMap) (k : String) : Int :=
  (mapGet? m k).getD 0

/-- Go assignment `m[k] = v`: overwrite the entry or create it. -/
def mapStore : CountMap → String → Int → CountMap
  | [], k, v => [(k, v)]
  | (k', v') :: t, k, v =>
    if k' = k then (k', v) :: t else (k', v') :: mapStore t k v

/-- Key list of a map. -/
def mapKeys (m : CountMap) : List String := m.map Prod.fst

/-! ## The aggregator -/

/-- State of the ticker owned by the aggregator. -/
inductive Ticker where
  | armed
  | stopped
  deriving DecidableEq, Repr

/-- Translation of `type syscallAggregator struct`.  The mutex `mu` is visible
through the `lock`/`unlock` events of the operations; the unbuffered channel
`stopSignal` has no state of its own and is modelled by the rendezvous rule of
`stop`. -/
structure syscallAggregator where
  counts : CountMap
  period : Int
  ticker : Ticker
  deriving DecidableEq, Repr

/-- Translation of `newSyscallAggregator`.  `time.NewTicker` panics on a
non-positive period; the panic is the `error` branch. -/
def newSyscallAggregator (period : Int) : Except String syscallAggregator :=
  if period ≤ 0 then .error "non-positive interval for NewTicker"
  else .ok { counts := [], period := period, ticker := .armed }

/-- Translation of `addSyscall`; `resolve` is `syscalls.GetSyscallNameByNumber`
(`none` when it reports `ok = false`). -/
def addSyscall (resolve : Int → Option String) (sa : syscallAggregator) (syscallNr : Int) :
    syscallAggregator :=
  match resolve syscallNr with
  | some name => { sa with counts := mapStore sa.counts name (wrapInt (mapIndex sa.counts name + 1)) }
  | none => sa

/-! ## `json.Marshal` on `map[string]int` -/

/-- Hexadecimal digit, lower case. -/
def hexDigit (n : Nat) : Char :=
  if n < 10 then Char.ofNat (48 + n) else Char.ofNat (87 + n)

/-- Four-digit escape body used by `\uXXXX`. -/
def hex4 (n : Nat) : List Char :=
  [hexDigit (n / 4096 % 16), hexDigit (n / 256 % 16), hexDigit (n / 16 % 16), hexDigit (n % 16)]

/-- Escaping of one character inside a JSON string, as `encoding/json` does it
with HTML escaping on (the default of `json.Marshal`). -/
def escapeChar (c : Char) : List Char :=
  if c = '"' then ['\\', '"']
  else if c = '\\' then ['\\', '\\']
  else if c = '\n' then ['\\', 'n']
  else if c = '\r' then ['\\', 'r']
  else if c = '\t' then ['\\', 't']
  else if c = Char.ofNat 8 then ['\\', 'b']
  else if c = Char.ofNat 12 then ['\\', 'f']
  else if c.toNat < 32 ∨ c = '<' ∨ c = '>' ∨ c = '&' ∨ c.toNat = 8232 ∨ c.toNat = 8233 then
    '\\' :: 'u' :: hex4 c.toNat
  else [c]

/-- JSON string literal of a map key. -/
def jsonString (s : String) : String :=
  String.mk ('"' :: (s.data.flatMap escapeChar ++ ['"']))

/-- Decimal rendering of an `int` value (`strconv.AppendInt`). -/
def jsonInt (v : Int) : String := toString v

/-- One `"key":value` member. -/
def jsonMember (e : String × Int) : String :=
  jsonString e.1 ++ ":" ++ jsonInt e.2

/-- Order of two entries by key.  Go compares strings byte-wise; on UTF-8 that
is the lexicographic order of the code points. -/
def keyLE (a b : String × Int) : Prop := a.1.data ≤ b.1.data

instance keyLE_decidable : DecidableRel keyLE :=
  fun a b => inferInstanceAs (Decidable (a.1.data ≤ b.1.data))

instance keyLE_total : IsTotal (String × Int) keyLE :=
  ⟨fun a b => le_total a.1.data b.1.data⟩

instance keyLE_trans : IsTrans (String × Int) keyLE :=
  ⟨fun _ _ _ h1 h2 => le_trans (α := List Char) h1 h2⟩

/-- Strict order of two entries by key. -/
def keyLT (a b : String × Int) : Prop := a.1.data < b.1.data

instance keyLT_antisymm : IsAntisymm (String × Int) keyLT :=
  ⟨fun _ _ h1 h2 => absurd h2 (lt_asymm (α := List Char) h1)⟩

/-- Entries ordered by key; `json.Marshal` sorts map keys before writing. -/
def sortByKey (m : CountMap) : List (String × Int) :=
  List.insertionSort keyLE m

/-- Text of a JSON object with the given members, in the given order. -/
def jsonObject (members : List (String × Int)) : String :=
  "\x7b" ++ ",".intercalate (members.map jsonMember) ++ "\x7d"

/-- Output of `json.Marshal(sa.counts)` for a non-nil map. -/
def jsonMarshal (m : CountMap) : String :=
  jsonObject (sortByKey m)

/-- The call `json.Marshal(sa.counts)` as used by the program: on a
`map[string]int` it has no failing case. -/
def goMarshal (m : CountMap) : Except String String :=
  .ok (jsonMarshal m)

/-! ## `emitJSON` and the ticker branch -/

/-- Observable steps of the flush path. -/
inductive Event where
  | lock
  | unlock
  | marshal (m : CountMap)
  | println (line : String)
  | resetCounts
  deriving DecidableEq, Repr

/-- Translation of `emitJSON`; `marshal` is `json.Marshal`.  The deferred
`Unlock` runs when the function returns, on both paths. -/
def emitJSON (marshal : CountMap → Except String String) (sa : syscallAggregator) :
    List Event :=
  match marshal sa.counts with
  | .error err => [.lock, .marshal sa.counts, .println ("Error marshalling JSON: " ++ err), .unlock]
  | .ok data => [.lock, .marshal sa.counts, .println data, .unlock]

/-- Translation of the branch `case <-sa.ticker.C:` of the loop in `start`:
`sa.emitJSON()` followed by `sa.counts = make(map[string]int)`. -/
def tickBranch (marshal : CountMap → Except String String) (sa : syscallAggregator) :
    syscallAggregator × List Event :=
  ({ sa with counts := [] }, emitJSON marshal sa ++ [.resetCounts])

/-- Lines written to standard output by a run of events. -/
def printed : List Event → List String
  | [] => []
  | .println line :: t => line :: printed t
  | _ :: t => printed t

/-- Whether `mu` is held after the events, given whether it was held before. -/
def heldAfter : Bool → List Event → Bool
  | h, [] => h
  | _, .lock :: t => heldAfter true t
  | _, .unlock :: t => heldAfter false t
  | h, _ :: t => heldAfter h t

/-- Whether `mu` is held at the moment event number `i` of `evs` happens
(the run starts with the mutex free). -/
def heldAt (evs : List Event) (i : Nat) : Bool :=
  heldAfter false (evs.take i)

/-- Serialization and output events. -/
def Event.isOutput : Event → Bool
  | .marshal _ => true
  | .println _ => true
  | _ => false

/-! ## The background loop of `start` and `stop` -/

/-- Control state of one goroutine spawned by `start`: waiting in the
`select`, between `emitJSON` and the reset of `counts`, or returned. -/
inductive LoopState where
  | selecting
  | emitted
  | exited
  deriving DecidableEq, Repr

/-- Aggregator, the goroutines spawned by `start` so far (in spawning order;
none before the first `start`) and the standard output. -/
structure World where
  sa : syscallAggregator
  loops : List LoopState
  stdout : List String
  deriving DecidableEq, Repr

/-- The first goroutine in state `a` moves to state `b`; `none` when no
goroutine is in state `a`.  The goroutines run the same code and hold no data
of their own, so which of several goroutines in one state takes a step makes
no difference. -/
def advance (a b : LoopState) : List LoopState → Option (List LoopState)
  | [] => none
  | g :: t => if g = a then some (b :: t) else (advance a b t).map (g :: ·)

/-- Steps of the concurrent system.  `addSyscall` and `emitJSON` each run
under `mu`, so each is one step; the assignment that resets `counts` is a
step of its own because the loop performs it after `emitJSON` has returned. -/
inductive Action where
  | start
  | add (syscallNr : Int)
  | tickEmit
  | tickReset
  | stop
  deriving DecidableEq, Repr

/-- Translation of `start`: a new goroutine is spawned and waits in its
`select`.  The function has no guard: every call spawns a goroutine. -/
def start (w : World) : World :=
  { w with loops := w.loops ++ [.selecting] }

/-- Translation of `stop` together with the branch `case <-sa.stopSignal:` of
the loop.  The send `sa.stopSignal <- true` is on an unbuffered channel: it
completes only together with the receive in the `select` of a goroutine, after
which that goroutine runs `sa.ticker.Stop()` and returns.  `none` when there is
no receiver, that is when the send blocks. -/
def stop (w : World) : Option World :=
  match advance .selecting .exited w.loops with
  | some ls => some { w with loops := ls, sa := { w.sa with ticker := .stopped } }
  | none => none

/-- One step; `none` when the action cannot proceed in this state.  The two
tick actions are the two statements of the branch `case <-sa.ticker.C:`. -/
def step (resolve : Int → Option String) (marshal : CountMap → Except String String)
    (w : World) : Action → Option World
  | .start => some (start w)
  | .add nr => some { w with sa := addSyscall resolve w.sa nr }
  | .tickEmit =>
    if w.sa.ticker = .armed then
      match advance .selecting .emitted w.loops with
      | some ls =>
        some { w with loops := ls, stdout := w.stdout ++ printed (emitJSON marshal w.sa) }
      | none => none
    else none
  | .tickReset =>
    match advance .emitted .selecting w.loops with
    | some ls => some { w with loops := ls, sa := { w.sa with counts := [] } }
    | none => none
  | .stop => stop w

/-- A schedule, step by step. -/
def run (resolve : Int → Option String) (marshal : CountMap → Except String String) :
    World → List Action → Option World
  | w, [] => some w
  | w, a :: t =>
    match step resolve marshal w a with
    | some w' => run resolve marshal w' t
    | none => none

/-- World right after `newSyscallAggregator` returned `sa`. -/
def initWorld (sa : syscallAggregator) : World :=
  { sa := sa, loops := [], stdout := [] }

/-! ## `main` -/

/-- Value of the constant `defaultSamplingInterval`. -/
def defaultSamplingInterval : String := "300s"

/-- How the process ends. -/
structure ProcessResult where
  stdout : List String
  exitCode : Nat
  started : Bool
  period : Option Int
  panicked : Option String
  deriving DecidableEq, Repr

/-- Translation of `main`.  `interval` is the value of the `-interval` flag when
given; `parseDuration` is `time.ParseDuration` (nanoseconds); `doRun` is `do`.
`stdout` holds the lines `main` itself prints, `started` tells whether
`aggregator.start()` was reached.  A bare `return` from `main` ends the process
with status 0 (after the deferred `stop` when it was registered), `os.Exit(1)`
with status 1, a panic with status 2. -/
def main (parseDuration : String → Except String Int)
    (doRun : syscallAggregator → Except String Unit) (interval : Option String) :
    ProcessResult :=
  let samplingIntervalStr := interval.getD defaultSamplingInterval
  match parseDuration samplingIntervalStr with
  | .error err =>
    { stdout := ["Error parsing sampling interval: " ++ err], exitCode := 0,
      started := false, period := none, panicked := none }
  | .ok samplingInterval =>
    match newSyscallAggregator samplingInterval with
    | .error p =>
      { stdout := [], exitCode := 2, started := false, period := none, panicked := some p }
    | .ok aggregator =>
      match doRun aggregator with
      | .error err =>
        { stdout := ["Error running application: " ++ err], exitCode := 1,
          started := true, period := some aggregator.period, panicked := none }
      | .ok _ =>
        { stdout := [], exitCode := 0, started := true, period := some aggregator.period,
          panicked := none }

/-! ## Specification-side vocabulary -/

/-- Number of codes of the sequence that the resolver maps to `name`. -/
def occurrences (resolve : Int → Option String) (codes : List Int) (name : String) : Nat :=
  codes.countP (fun c => decide (resolve c = some name))

/-- A resolver for the example scenario: 0 is `read`, 1 is `write`, every other
code is unknown. -/
def sampleResolve (n : Int) : Option String :=
  if n = 0 then some "read" else if n = 1 then some "write" else none

/-- A resolver that knows every code as `read`. -/
def readResolve (_ : Int) : Option String := some "read"

/-- Effect of one action on the list of codes passed to `addSyscall` since the
last reset of `counts`. -/
def windowStep (acc : List Int) : Action → List Int
  | .add nr => acc ++ [nr]
  | .tickReset => []
  | _ => acc

/-- Codes passed to `addSyscall` since the last reset, in a schedule that
starts with an empty window. -/
def windowCodes (acts : List Action) : List Int :=
  acts.foldl windowStep []

/-- A sample of `time.ParseDuration` for the examples: it knows the four
strings below and rejects every other string with the library's message. -/
def sampleParseDuration (s : String) : Except String Int :=
  if s = "300s" then .ok 300000000000
  else if s = "10s" then .ok 10000000000
  else if s = "0s" then .ok 0
  else if s = "-5s" then .ok (-5000000000)
  else .error ("time: invalid duration \"" ++ s ++ "\"")

/-- A sample of `do` that returns without error. -/
def sampleDo (_ : syscallAggregator) : Except String Unit := .ok ()

/-- What `counts` must answer for a window in which `codes` were added. -/
def windowLookup (resolve : Int → Option String) (codes : List Int) (name : String) :
    Option Int :=
  if occurrences resolve codes name = 0 then none
  else some (wrapInt (occurrences resolve codes name))

/-! ## Lemmas on the map and on wrap-around -/

theorem wrapInt_eq_self (x : Int) (h1 : -(2 ^ 63) ≤ x) (h2 : x < 2 ^ 63) : wrapInt x = x := by
  unfold wrapInt intBits
  norm_num at h1 h2 ⊢
  omega

theorem wrapInt_zero : wrapInt 0 = 0 := by decide

theorem mapGet?_mapStore (m : CountMap) (k : String) (v : Int) (k' : String) :
    mapGet? (mapStore m k v) k' = if k = k' then some v else mapGet? m k' := by
  induction m with
  | nil => simp [mapStore, mapGet?]
  | cons e t ih =>
    obtain ⟨a, b⟩ := e
    by_cases hak : a = k
    · subst hak
      by_cases hk : a = k' <;> simp [mapStore, mapGet?, hk]
    · by_cases hk : k = k'
      · subst hk
        simp [mapStore, mapGet?, hak, ih]
      · by_cases hak' : a = k'
        · subst hak'
          simp [mapStore, mapGet?, hak, hk]
        · simp [mapStore, mapGet?, hak, hak', hk, ih]

theorem addSyscall_get (resolve : Int → Option String) (sa : syscallAggregator) (nr : Int)
    (name : String) :
    mapGet? (addSyscall resolve sa nr).counts name =
      if resolve nr = some name then some (wrapInt (mapIndex sa.counts name + 1))
      else mapGet? sa.counts name := by
  unfold addSyscall
  cases h : resolve nr with
  | none => simp
  | some n =>
    simp only [mapGet?_mapStore, Option.some.injEq]
    by_cases hn : n = name
    · subst hn; simp
    · simp [hn]

theorem wrapInt_wrapInt_add (x y : Int) : wrapInt (wrapInt x + y) = wrapInt (x + y) := by
  unfold wrapInt intBits
  norm_num
  omega

theorem addSyscall_index (resolve : Int → Option String) (sa : syscallAggregator) (nr : Int)
    (name : String) :
    mapIndex (addSyscall resolve sa nr).counts name =
      if resolve nr = some name then wrapInt (mapIndex sa.counts name + 1)
      else mapIndex sa.counts name := by
  unfold mapIndex
  rw [addSyscall_get]
  by_cases h : resolve nr = some name <;> simp [h, mapIndex]

theorem occurrences_cons (resolve : Int → Option String) (c : Int) (t : List Int)
    (name : String) :
    occurrences resolve (c :: t) name =
      occurrences resolve t name + if resolve c = some name then 1 else 0 := by
  unfold occurrences
  rw [List.countP_cons]
  by_cases h : resolve c = some name <;> simp [h]

/-- Lookup after a run of `addSyscall` calls, from any state. -/
theorem foldl_addSyscall_get (resolve : Int → Option String) (codes : List Int)
    (sa : syscallAggregator) (name : String) :
    mapGet? (codes.foldl (addSyscall resolve) sa).counts name =
      if occurrences resolve codes name = 0 then mapGet? sa.counts name
      else some (wrapInt (mapIndex sa.counts name + occurrences resolve codes name)) := by
  induction codes generalizing sa with
  | nil => simp [occurrences]
  | cons c t ih =>
    rw [List.foldl_cons, ih, occurrences_cons, addSyscall_get, addSyscall_index]
    by_cases hc : resolve c = some name
    · by_cases ht : occurrences resolve t name = 0
      · simp [hc, ht]
      · simp only [hc, ht, if_true, if_false]
        rw [wrapInt_wrapInt_add]
        congr 2
        push_cast
        ring
    · simp [hc]

theorem occurrences_perm (resolve : Int → Option String) (l1 l2 : List Int) (h : l1.Perm l2)
    (name : String) : occurrences resolve l1 name = occurrences resolve l2 name := by
  unfold occurrences
  exact h.countP_eq _

theorem occurrences_replicate_read (n : Nat) :
    occurrences readResolve (List.replicate n 0) "read" = n := by
  unfold occurrences
  rw [List.countP_replicate]
  simp [readResolve]

theorem newSyscallAggregator_counts (period : Int) (sa : syscallAggregator)
    (h : newSyscallAggregator period = .ok sa) : sa.counts = [] := by
  unfold newSyscallAggregator at h
  split at h
  · cases h
  · cases h; rfl

/-! ## Accumulation (C1) -/

/-- C1, amended: from a freshly constructed aggregator, after `addSyscall` on
each code of a sequence (no tick in between) the lookup of every name is absent
when no code resolves to it, and otherwise is the number of codes resolving to
it reduced to the 64-bit `int` range; that value is the exact number whenever
the number is below 2^63. -/
theorem accumulation_counts (resolve : Int → Option String) (period : Int)
    (sa : syscallAggregator) (codes : List Int)
    (hnew : newSyscallAggregator period = .ok sa) (name : String) :
    mapGet? (codes.foldl (addSyscall resolve) sa).counts name =
        (if occurrences resolve codes name = 0 then none
         else some (wrapInt (occurrences resolve codes name))) ∧
    (occurrences resolve codes name < 2 ^ 63 →
      mapGet? (codes.foldl (addSyscall resolve) sa).counts name =
        (if occurrences resolve codes name = 0 then none
         else some (occurrences resolve codes name : Int))) := by
  have h0 := newSyscallAggregator_counts period sa hnew
  have key : mapGet? (codes.foldl (addSyscall resolve) sa).counts name =
      (if occurrences resolve codes name = 0 then none
       else some (wrapInt (occurrences resolve codes name))) := by
    rw [foldl_addSyscall_get, h0]
    simp [mapGet?, mapIndex]
  refine ⟨key, fun hlt => ?_⟩
  rw [key]
  by_cases hz : occurrences resolve codes name = 0
  · simp [hz]
  · simp only [hz, if_false]
    rw [wrapInt_eq_self]
    · have : (0 : Int) ≤ (occurrences resolve codes name : Int) := Int.natCast_nonneg _
      omega
    · exact_mod_cast hlt

/-- Instance of `accumulation_counts`: three `read` and two `write` events. -/
theorem accumulation_counts_witness :
    newSyscallAggregator 1 = .ok ⟨[], 1, .armed⟩ ∧
    occurrences sampleResolve [0, 0, 0, 1, 1] "read" < 2 ^ 63 ∧
    mapGet? ([0, 0, 0, 1, 1].foldl (addSyscall sampleResolve) ⟨[], 1, .armed⟩).counts "read" =
      (if occurrences sampleResolve [0, 0, 0, 1, 1] "read" = 0 then none
       else some (occurrences sampleResolve [0, 0, 0, 1, 1] "read" : Int)) :=
  ⟨rfl, by decide,
    (accumulation_counts sampleResolve 1 ⟨[], 1, .armed⟩ [0, 0, 0, 1, 1] rfl "read").2
      (by decide)⟩

/-- C1 as stated fails: after 2^63 calls that all resolve to `read`, the entry
of `read` holds -2^63, not the number of calls. -/
theorem accumulation_overflow_counterexample :
    newSyscallAggregator 1 = .ok ⟨[], 1, .armed⟩ ∧
    (∀ c ∈ List.replicate (2 ^ 63) (0 : Int), (readResolve c).isSome = true) ∧
    occurrences readResolve (List.replicate (2 ^ 63) 0) "read" = 2 ^ 63 ∧
    mapGet? ((List.replicate (2 ^ 63) 0).foldl (addSyscall readResolve)
      ⟨[], 1, .armed⟩).counts "read" = some (-(2 ^ 63)) ∧
    mapGet? ((List.replicate (2 ^ 63) 0).foldl (addSyscall readResolve)
      ⟨[], 1, .armed⟩).counts "read" ≠
      some (occurrences readResolve (List.replicate (2 ^ 63) 0) "read" : Int) := by
  have hget : mapGet? ((List.replicate (2 ^ 63) 0).foldl (addSyscall readResolve)
      ⟨[], 1, .armed⟩).counts "read" = some (-(2 ^ 63)) := by
    rw [foldl_addSyscall_get, occurrences_replicate_read]
    simp [mapGet?, mapIndex, wrapInt, intBits]
  refine ⟨rfl, fun c _ => rfl, occurrences_replicate_read _, hget, ?_⟩
  rw [hget, occurrences_replicate_read]
  norm_num

/-! ## Unknown codes (C2) -/

/-- C2: when the resolver does not know the code, `addSyscall` returns the
aggregator unchanged, and as a step of the system it always completes with the
world unchanged (there is no error result). -/
theorem addSyscall_unknown_noop (resolve : Int → Option String)
    (marshal : CountMap → Except String String) (w : World) (nr : Int)
    (h : resolve nr = none) :
    addSyscall resolve w.sa nr = w.sa ∧ step resolve marshal w (.add nr) = some w := by
  have h1 : addSyscall resolve w.sa nr = w.sa := by
    unfold addSyscall
    rw [h]
  exact ⟨h1, by simp [step, h1]⟩

/-- Instance of `addSyscall_unknown_noop`: code 99 on a non-empty window. -/
theorem addSyscall_unknown_noop_witness :
    sampleResolve 99 = none ∧
    addSyscall sampleResolve ⟨[("read", 3)], 1, .armed⟩ 99 = ⟨[("read", 3)], 1, .armed⟩ ∧
    step sampleResolve goMarshal ⟨⟨[("read", 3)], 1, .armed⟩, [.selecting], []⟩ (.add 99) =
      some ⟨⟨[("read", 3)], 1, .armed⟩, [.selecting], []⟩ :=
  ⟨by decide,
    addSyscall_unknown_noop sampleResolve goMarshal
      ⟨⟨[("read", 3)], 1, .armed⟩, [.selecting], []⟩ 99 (by decide)⟩

/-! ## Distinct keys and the order-free view of a map -/

theorem mapGet?_eq_none_iff (m : CountMap) (k : String) :
    mapGet? m k = none ↔ k ∉ mapKeys m := by
  induction m with
  | nil => simp [mapGet?, mapKeys]
  | cons e t ih =>
    obtain ⟨a, b⟩ := e
    by_cases h : a = k
    · simp [mapGet?, mapKeys, h]
    · have h' : ¬ k = a := fun hk => h hk.symm
      simp only [mapGet?, h, if_false, ih]
      simp [mapKeys, h']

theorem mapKeys_mapStore (m : CountMap) (k : String) (v : Int) :
    mapKeys (mapStore m k v) = if k ∈ mapKeys m then mapKeys m else mapKeys m ++ [k] := by
  induction m with
  | nil => simp [mapStore, mapKeys]
  | cons e t ih =>
    obtain ⟨a, b⟩ := e
    by_cases h : a = k
    · simp [mapStore, mapKeys, h]
    · have h' : ¬ k = a := fun hk => h hk.symm
      unfold mapKeys at ih
      by_cases hk : k ∈ List.map Prod.fst t
      · simp [mapStore, mapKeys, h, h', hk, ih]
      · simp [mapStore, mapKeys, h, h', hk, ih]

theorem mapStore_nodup (m : CountMap) (k : String) (v : Int) (h : (mapKeys m).Nodup) :
    (mapKeys (mapStore m k v)).Nodup := by
  rw [mapKeys_mapStore]
  by_cases hk : k ∈ mapKeys m
  · simpa [hk] using h
  · simp only [hk, if_false]
    rw [List.nodup_append]
    refine ⟨h, List.nodup_singleton k, ?_⟩
    intro a ha hb
    simp at hb
    subst hb
    exact hk ha

theorem addSyscall_nodup (resolve : Int → Option String) (sa : syscallAggregator) (nr : Int)
    (h : (mapKeys sa.counts).Nodup) : (mapKeys (addSyscall resolve sa nr).counts).Nodup := by
  unfold addSyscall
  cases resolve nr with
  | none => exact h
  | some n => exact mapStore_nodup _ _ _ h

theorem foldl_addSyscall_nodup (resolve : Int → Option String) (codes : List Int)
    (sa : syscallAggregator) (h : (mapKeys sa.counts).Nodup) :
    (mapKeys (codes.foldl (addSyscall resolve) sa).counts).Nodup := by
  induction codes generalizing sa with
  | nil => exact h
  | cons c t ih => exact ih _ (addSyscall_nodup resolve sa c h)

theorem mem_iff_mapGet? (m : CountMap) (h : (mapKeys m).Nodup) (k : String) (v : Int) :
    (k, v) ∈ m ↔ mapGet? m k = some v := by
  induction m with
  | nil => simp [mapGet?]
  | cons e t ih =>
    obtain ⟨a, b⟩ := e
    have hn : a ∉ mapKeys t ∧ (mapKeys t).Nodup := by
      simpa [mapKeys] using h
    by_cases hak : a = k
    · subst hak
      have hnot : (a, v) ∉ t := by
        intro hmem
        apply hn.1
        unfold mapKeys
        exact List.mem_map.mpr ⟨(a, v), hmem, rfl⟩
      simp only [List.mem_cons, Prod.mk.injEq, true_and, hnot, or_false, mapGet?, if_true,
        Option.some.injEq]
      exact eq_comm
    · have hka : ¬ k = a := fun hk => hak hk.symm
      simp [mapGet?, hak, hka, ih hn.2]

/-- Two maps with distinct keys that answer every lookup alike hold the same
entries. -/
theorem perm_of_mapGet?_eq (m1 m2 : CountMap) (h1 : (mapKeys m1).Nodup)
    (h2 : (mapKeys m2).Nodup) (h : ∀ k, mapGet? m1 k = mapGet? m2 k) : m1.Perm m2 := by
  rw [List.perm_ext_iff_of_nodup (List.Nodup.of_map _ h1) (List.Nodup.of_map _ h2)]
  rintro ⟨k, v⟩
  rw [mem_iff_mapGet? m1 h1, mem_iff_mapGet? m2 h2, h]

theorem sorted_keyLT_of_sorted_keyLE (l : List (String × Int)) (hs : l.Sorted keyLE)
    (hn : (mapKeys l).Nodup) : l.Sorted keyLT := by
  have hp : l.Pairwise (fun a b => a.1 ≠ b.1) := by
    have := hn
    unfold mapKeys List.Nodup at this
    exact List.pairwise_map.mp this
  have hboth := List.Pairwise.and hs hp
  refine List.Pairwise.imp ?_ hboth
  intro a b hab
  obtain ⟨hle, hne⟩ := hab
  unfold keyLE at hle
  unfold keyLT
  rcases lt_or_eq_of_le hle with hlt | heq
  · exact hlt
  · exact absurd (String.ext heq) hne

/-- The sorted entry list, which is what the emission writes, depends only on
the entries and not on their order in the list. -/
theorem sortByKey_eq_of_perm (m1 m2 : CountMap) (hp : m1.Perm m2) (h1 : (mapKeys m1).Nodup) :
    sortByKey m1 = sortByKey m2 := by
  have h2 : (mapKeys m2).Nodup := (List.Perm.nodup_iff (hp.map Prod.fst)).mp h1
  have p1 : (sortByKey m1).Perm m1 := List.perm_insertionSort keyLE m1
  have p2 : (sortByKey m2).Perm m2 := List.perm_insertionSort keyLE m2
  have n1 : (mapKeys (sortByKey m1)).Nodup := (List.Perm.nodup_iff (p1.map Prod.fst)).mpr h1
  have n2 : (mapKeys (sortByKey m2)).Nodup := (List.Perm.nodup_iff (p2.map Prod.fst)).mpr h2
  have s1 := sorted_keyLT_of_sorted_keyLE _ (List.sorted_insertionSort keyLE m1) n1
  have s2 := sorted_keyLT_of_sorted_keyLE _ (List.sorted_insertionSort keyLE m2) n2
  exact List.eq_of_perm_of_sorted (p1.trans (hp.trans p2.symm)) s1 s2

/-! ## Order independence (C8) -/

/-- C8: two `addSyscall` calls give the same counts map in either order (every
lookup agrees, and the other fields are untouched); for two sequences of codes
that are permutations of each other every lookup agrees after the runs, and
from a map with distinct keys the text `json.Marshal` produces is the same. -/
theorem addSyscall_commute (resolve : Int → Option String) (sa : syscallAggregator) :
    (∀ a b name,
      mapGet? (addSyscall resolve (addSyscall resolve sa a) b).counts name =
        mapGet? (addSyscall resolve (addSyscall resolve sa b) a).counts name) ∧
    (∀ l1 l2 : List Int, l1.Perm l2 →
      (∀ name, mapGet? (l1.foldl (addSyscall resolve) sa).counts name =
        mapGet? (l2.foldl (addSyscall resolve) sa).counts name) ∧
      ((mapKeys sa.counts).Nodup →
        jsonMarshal (l1.foldl (addSyscall resolve) sa).counts =
          jsonMarshal (l2.foldl (addSyscall resolve) sa).counts)) := by
  have hperm : ∀ l1 l2 : List Int, l1.Perm l2 → ∀ name,
      mapGet? (l1.foldl (addSyscall resolve) sa).counts name =
        mapGet? (l2.foldl (addSyscall resolve) sa).counts name := by
    intro l1 l2 hp name
    rw [foldl_addSyscall_get, foldl_addSyscall_get, occurrences_perm resolve l1 l2 hp]
  refine ⟨fun a b name => ?_, fun l1 l2 hp => ⟨hperm l1 l2 hp, fun hn => ?_⟩⟩
  · exact hperm [a, b] [b, a] (List.Perm.swap b a []) name
  · unfold jsonMarshal
    rw [sortByKey_eq_of_perm _ _
      (perm_of_mapGet?_eq _ _ (foldl_addSyscall_nodup resolve l1 sa hn)
        (foldl_addSyscall_nodup resolve l2 sa hn) (hperm l1 l2 hp))
      (foldl_addSyscall_nodup resolve l1 sa hn)]

/-- Instance of `addSyscall_commute`: `[0, 1, 0]` against `[1, 0, 0]` on a
window that already counts one `write`. -/
theorem addSyscall_commute_witness :
    [0, 1, 0].Perm [1, 0, (0 : Int)] ∧ (mapKeys [("write", (1 : Int))]).Nodup ∧
    (∀ name, mapGet? ([0, 1, 0].foldl (addSyscall sampleResolve)
        ⟨[("write", 1)], 1, .armed⟩).counts name =
      mapGet? ([1, 0, 0].foldl (addSyscall sampleResolve)
        ⟨[("write", 1)], 1, .armed⟩).counts name) ∧
    jsonMarshal ([0, 1, 0].foldl (addSyscall sampleResolve) ⟨[("write", 1)], 1, .armed⟩).counts =
      jsonMarshal ([1, 0, 0].foldl (addSyscall sampleResolve)
        ⟨[("write", 1)], 1, .armed⟩).counts :=
  ⟨List.Perm.swap 1 0 [0], by decide,
    ((addSyscall_commute sampleResolve ⟨[("write", 1)], 1, .armed⟩).2 [0, 1, 0] [1, 0, 0]
      (List.Perm.swap 1 0 [0])).1,
    ((addSyscall_commute sampleResolve ⟨[("write", 1)], 1, .armed⟩).2 [0, 1, 0] [1, 0, 0]
      (List.Perm.swap 1 0 [0])).2 (by decide)⟩

/-! ## Reset (C3) -/

/-- C3: whatever `json.Marshal` returns (a text or an error), after the ticker
branch has run the counts map is empty and the other fields are unchanged; a
second run of the branch with no `addSyscall` in between locks, marshals the
empty map, prints one line, unlocks and resets, and leaves the map empty. -/
theorem tickBranch_resets (marshal : CountMap → Except String String)
    (sa : syscallAggregator) :
    (tickBranch marshal sa).1.counts = [] ∧
    (tickBranch marshal sa).1.period = sa.period ∧
    (tickBranch marshal sa).1.ticker = sa.ticker ∧
    (∃ line, (tickBranch marshal (tickBranch marshal sa).1).2 =
      [.lock, .marshal [], .println line, .unlock, .resetCounts]) ∧
    (tickBranch marshal (tickBranch marshal sa).1).1.counts = [] := by
  refine ⟨rfl, rfl, rfl, ?_, rfl⟩
  unfold tickBranch emitJSON
  cases marshal [] with
  | error err => exact ⟨_, rfl⟩
  | ok data => exact ⟨_, rfl⟩

/-! ## Emission content (C4) -/

/-- C4: with `json.Marshal` as the serializer, the ticker branch prints exactly
one line; the line is the JSON object whose members are the entries of the
counts map, each once, ordered by key, each written as the quoted name, a
colon and the decimal count; for the empty map the line is `{}`.  In the
example scenario (0 is `read`, 1 is `write`, 99 unknown; three times 0, twice
1, once 99) the first tick prints `{"read":3,"write":2}` and the next `{}`. -/
theorem tickBranch_emits_json (sa : syscallAggregator) :
    printed (tickBranch goMarshal sa).2 = [jsonMarshal sa.counts] ∧
    (∃ members : List (String × Int), members.Perm sa.counts ∧ members.Sorted keyLE ∧
      jsonMarshal sa.counts = "\x7b" ++ ",".intercalate (members.map jsonMember) ++ "\x7d") ∧
    printed (tickBranch goMarshal { sa with counts := [] }).2 = ["\x7b\x7d"] ∧
    (run sampleResolve goMarshal (initWorld ⟨[], 1, .armed⟩)
      [.start, .add 0, .add 0, .add 0, .add 1, .add 1, .add 99,
        .tickEmit, .tickReset, .tickEmit, .tickReset]).map World.stdout =
      some ["\x7b\"read\":3,\"write\":2\x7d", "\x7b\x7d"] := by
  refine ⟨rfl, ⟨sortByKey sa.counts, List.perm_insertionSort keyLE _,
    List.sorted_insertionSort keyLE _, rfl⟩, rfl, by decide⟩

/-! ## Where the output happens (C10) -/

/-- C10, amended: in every run of `emitJSON` the serialization and the write
to standard output happen while the mutex is held: the run is lock, marshal of
the counts, one print, unlock, and the mutex is free again when it returns. -/
theorem emitJSON_output_under_lock (marshal : CountMap → Except String String)
    (sa : syscallAggregator) :
    (∃ line, emitJSON marshal sa = [.lock, .marshal sa.counts, .println line, .unlock]) ∧
    (∀ i e, (emitJSON marshal sa)[i]? = some e → e.isOutput = true →
      heldAt (emitJSON marshal sa) i = true) ∧
    heldAfter false (emitJSON marshal sa) = false := by
  have hshape : ∃ line, emitJSON marshal sa =
      [.lock, .marshal sa.counts, .println line, .unlock] := by
    unfold emitJSON
    cases marshal sa.counts with
    | error err => exact ⟨_, rfl⟩
    | ok data => exact ⟨_, rfl⟩
  obtain ⟨line, hline⟩ := hshape
  refine ⟨⟨line, hline⟩, ?_, ?_⟩
  · intro i e hi he
    rw [hline] at hi ⊢
    rcases i with _ | _ | _ | _ | i
    · simp at hi; subst hi; simp [Event.isOutput] at he
    · simp [heldAt, heldAfter]
    · simp [heldAt, heldAfter]
    · simp at hi; subst hi; simp [Event.isOutput] at he
    · simp at hi
  · rw [hline]
    simp [heldAfter]

/-- Instance of `emitJSON_output_under_lock`: the print of an empty window. -/
theorem emitJSON_output_under_lock_witness :
    (emitJSON goMarshal ⟨[], 1, .armed⟩)[2]? = some (.println "\x7b\x7d") ∧
    (Event.println "\x7b\x7d").isOutput = true ∧
    heldAt (emitJSON goMarshal ⟨[], 1, .armed⟩) 2 = true :=
  ⟨by decide, rfl,
    (emitJSON_output_under_lock goMarshal ⟨[], 1, .armed⟩).2.1 2 (.println "\x7b\x7d")
      (by decide) rfl⟩

/-- C10 as stated fails: on an empty window `emitJSON` marshals and prints
between its lock and its unlock, so the mutex is held at both moments. -/
theorem emitJSON_outside_lock_counterexample :
    emitJSON goMarshal ⟨[], 1, .armed⟩ = [.lock, .marshal [], .println "\x7b\x7d", .unlock] ∧
    heldAt (emitJSON goMarshal ⟨[], 1, .armed⟩) 1 = true ∧
    heldAt (emitJSON goMarshal ⟨[], 1, .armed⟩) 2 = true := by
  decide

/-! ## Schedules -/

theorem run_append (resolve : Int → Option String) (marshal : CountMap → Except String String)
    (w : World) (a b : List Action) :
    run resolve marshal w (a ++ b) =
      (run resolve marshal w a).bind (fun w' => run resolve marshal w' b) := by
  induction a generalizing w with
  | nil => simp [run]
  | cons x t ih =>
    simp only [List.cons_append, run]
    cases step resolve marshal w x with
    | none => simp
    | some w' => simpa using ih w'

theorem run_adds (resolve : Int → Option String) (marshal : CountMap → Except String String)
    (w : World) (codes : List Int) :
    run resolve marshal w (codes.map Action.add) =
      some { w with sa := codes.foldl (addSyscall resolve) w.sa } := by
  induction codes generalizing w with
  | nil => simp [run]
  | cons c t ih =>
    simp only [List.map_cons, run, step, List.foldl_cons]
    rw [ih]

/-- A whole tick of the loop, as two steps of the system, is the ticker
branch. -/
theorem run_tick_eq_tickBranch (resolve : Int → Option String)
    (marshal : CountMap → Except String String) (w : World)
    (h1 : w.loops = [.selecting]) (h2 : w.sa.ticker = .armed) :
    run resolve marshal w [.tickEmit, .tickReset] =
      some { w with sa := (tickBranch marshal w.sa).1,
                    stdout := w.stdout ++ printed (tickBranch marshal w.sa).2 } := by
  have hp : printed (tickBranch marshal w.sa).2 = printed (emitJSON marshal w.sa) := by
    unfold tickBranch emitJSON
    cases marshal w.sa.counts <;> rfl
  rw [hp]
  obtain ⟨sa, loops, out⟩ := w
  simp only at h1 h2
  subst h1
  simp [run, step, advance, h2, tickBranch]

theorem run_prefix_adds (resolve : Int → Option String)
    (marshal : CountMap → Except String String) (w : World) (pre : List Action) (w1 : World)
    (codes : List Int) (h : run resolve marshal w pre = some w1) :
    run resolve marshal w (pre ++ codes.map Action.add) =
      some { w1 with sa := codes.foldl (addSyscall resolve) w1.sa } := by
  rw [run_append, h, Option.some_bind]
  exact run_adds resolve marshal w1 codes

theorem foldl_windowStep_adds (acc : List Int) (codes : List Int) :
    (codes.map Action.add).foldl windowStep acc = acc ++ codes := by
  induction codes generalizing acc with
  | nil => simp
  | cons c t ih =>
    simp only [List.map_cons, List.foldl_cons, windowStep]
    rw [ih]
    simp

theorem occurrences_append_singleton (resolve : Int → Option String) (acc : List Int)
    (c : Int) (name : String) :
    occurrences resolve (acc ++ [c]) name =
      occurrences resolve acc name + if resolve c = some name then 1 else 0 := by
  unfold occurrences
  rw [List.countP_append]
  by_cases h : resolve c = some name <;> simp [h]

theorem step_preserves_window (resolve : Int → Option String)
    (marshal : CountMap → Except String String) (w w' : World) (a : Action) (acc : List Int)
    (hinv : ∀ name, mapGet? w.sa.counts name = windowLookup resolve acc name)
    (hstep : step resolve marshal w a = some w') :
    ∀ name, mapGet? w'.sa.counts name = windowLookup resolve (windowStep acc a) name := by
  intro name
  cases a with
  | start =>
    simp only [step, Option.some.injEq] at hstep
    subst hstep
    exact hinv name
  | add nr =>
    simp only [step, Option.some.injEq] at hstep
    subst hstep
    simp only [windowStep, windowLookup]
    rw [addSyscall_get, occurrences_append_singleton]
    have hidx : mapIndex w.sa.counts name = wrapInt (occurrences resolve acc name) := by
      unfold mapIndex
      rw [hinv name]
      unfold windowLookup
      by_cases hz : occurrences resolve acc name = 0
      · rw [if_pos hz, hz, Nat.cast_zero, wrapInt_zero, Option.getD_none]
      · rw [if_neg hz, Option.getD_some]
    by_cases hc : resolve nr = some name
    · simp only [hc, if_true]
      rw [hidx, wrapInt_wrapInt_add]
      simp
    · simp only [hc, if_false, Nat.add_zero]
      exact hinv name
  | tickEmit =>
    simp only [step] at hstep
    split at hstep
    · split at hstep
      · cases hstep; exact hinv name
      · cases hstep
    · cases hstep
  | tickReset =>
    simp only [step] at hstep
    split at hstep
    · cases hstep
      simp [windowStep, windowLookup, occurrences, mapGet?]
    · cases hstep
  | stop =>
    simp only [step, stop] at hstep
    split at hstep
    · cases hstep; exact hinv name
    · cases hstep

theorem run_preserves_window (resolve : Int → Option String)
    (marshal : CountMap → Except String String) (acts : List Action) (w w' : World)
    (acc : List Int)
    (hinv : ∀ name, mapGet? w.sa.counts name = windowLookup resolve acc name)
    (hrun : run resolve marshal w acts = some w') :
    ∀ name, mapGet? w'.sa.counts name =
      windowLookup resolve (acts.foldl windowStep acc) name := by
  induction acts generalizing w acc with
  | nil =>
    simp only [run, Option.some.injEq] at hrun
    subst hrun
    simpa using hinv
  | cons a t ih =>
    simp only [run] at hrun
    cases hs : step resolve marshal w a with
    | none => rw [hs] at hrun; cases hrun
    | some w1 =>
      rw [hs] at hrun
      exact ih w1 (windowStep acc a) (step_preserves_window resolve marshal w w1 a acc hinv hs) hrun

/-! ## The counter-store invariant (C9) -/

/-- C9, amended: in every state reached from a freshly constructed aggregator
by a schedule of `start`, `addSyscall` calls, ticks and `stop`, a name that no
`addSyscall` call resolved to since the last reset is absent from the counts
map, and any other name is present with the number of such calls reduced to
the 64-bit `int` range; below 2^63 calls that value is the exact number, which
is at least 1. -/
theorem counts_invariant (resolve : Int → Option String)
    (marshal : CountMap → Except String String) (period : Int) (sa : syscallAggregator)
    (acts : List Action) (w : World)
    (hnew : newSyscallAggregator period = .ok sa)
    (hrun : run resolve marshal (initWorld sa) acts = some w) (name : String) :
    mapGet? w.sa.counts name =
        (if occurrences resolve (windowCodes acts) name = 0 then none
         else some (wrapInt (occurrences resolve (windowCodes acts) name))) ∧
    (occurrences resolve (windowCodes acts) name < 2 ^ 63 →
      mapGet? w.sa.counts name =
        (if occurrences resolve (windowCodes acts) name = 0 then none
         else some (occurrences resolve (windowCodes acts) name : Int)) ∧
      ∀ v, mapGet? w.sa.counts name = some v → 1 ≤ v) := by
  have h0 := newSyscallAggregator_counts period sa hnew
  have hinit : ∀ n, mapGet? (initWorld sa).sa.counts n = windowLookup resolve [] n := by
    intro n
    simp [initWorld, h0, mapGet?, windowLookup, occurrences]
  have key := run_preserves_window resolve marshal acts (initWorld sa) w [] hinit hrun name
  unfold windowLookup at key
  refine ⟨key, fun hlt => ?_⟩
  have hexact : mapGet? w.sa.counts name =
      (if occurrences resolve (windowCodes acts) name = 0 then none
       else some (occurrences resolve (windowCodes acts) name : Int)) := by
    rw [key]
    show (if occurrences resolve (windowCodes acts) name = 0 then none
      else some (wrapInt (occurrences resolve (windowCodes acts) name))) = _
    by_cases hz : occurrences resolve (windowCodes acts) name = 0
    · simp [hz]
    · simp only [hz, if_false]
      rw [wrapInt_eq_self]
      · have : (0 : Int) ≤ (occurrences resolve (windowCodes acts) name : Int) :=
          Int.natCast_nonneg _
        omega
      · exact_mod_cast hlt
  refine ⟨hexact, fun v hv => ?_⟩
  rw [hexact] at hv
  by_cases hz : occurrences resolve (windowCodes acts) name = 0
  · simp [hz] at hv
  · simp only [hz, if_false, Option.some.injEq] at hv
    omega

/-- Instance of `counts_invariant`: one `read` before a tick, two after it. -/
theorem counts_invariant_witness :
    newSyscallAggregator 1 = .ok ⟨[], 1, .armed⟩ ∧
    run sampleResolve goMarshal (initWorld ⟨[], 1, .armed⟩)
      [.start, .add 0, .tickEmit, .tickReset, .add 0, .add 99, .add 0] =
      some ⟨⟨[("read", 2)], 1, .armed⟩, [.selecting], ["\x7b\"read\":1\x7d"]⟩ ∧
    occurrences sampleResolve
      (windowCodes [.start, .add 0, .tickEmit, .tickReset, .add 0, .add 99, .add 0]) "read"
      < 2 ^ 63 ∧
    mapGet? [("read", 2)] "read" =
      (if occurrences sampleResolve
          (windowCodes [.start, .add 0, .tickEmit, .tickReset, .add 0, .add 99, .add 0])
          "read" = 0 then none
       else some (occurrences sampleResolve
          (windowCodes [.start, .add 0, .tickEmit, .tickReset, .add 0, .add 99, .add 0])
          "read" : Int)) :=
  ⟨rfl, by decide, by decide,
    ((counts_invariant sampleResolve goMarshal 1 ⟨[], 1, .armed⟩
      [.start, .add 0, .tickEmit, .tickReset, .add 0, .add 99, .add 0]
      ⟨⟨[("read", 2)], 1, .armed⟩, [.selecting], ["\x7b\"read\":1\x7d"]⟩ rfl (by decide) "read").2
      (by decide)).1⟩

/-- C9 as stated fails: after a tick, 2^64 calls that resolve to `read` leave
`read` present in the counts map with count 0, which is neither at least 1 nor
the number of calls since the reset. -/
theorem counts_invariant_overflow_counterexample :
    newSyscallAggregator 1 = .ok ⟨[], 1, .armed⟩ ∧
    run readResolve goMarshal (initWorld ⟨[], 1, .armed⟩)
      ([.start, .tickEmit, .tickReset] ++ (List.replicate (2 ^ 64) 0).map Action.add) =
      some ⟨(List.replicate (2 ^ 64) 0).foldl (addSyscall readResolve) ⟨[], 1, .armed⟩,
        [.selecting], ["\x7b\x7d"]⟩ ∧
    occurrences readResolve
      (windowCodes ([.start, .tickEmit, .tickReset] ++
        (List.replicate (2 ^ 64) 0).map Action.add)) "read" = 2 ^ 64 ∧
    mapGet? ((List.replicate (2 ^ 64) 0).foldl (addSyscall readResolve)
      ⟨[], 1, .armed⟩).counts "read" = some 0 := by
  refine ⟨rfl, ?_, ?_, ?_⟩
  · exact run_prefix_adds readResolve goMarshal (initWorld ⟨[], 1, .armed⟩)
      [.start, .tickEmit, .tickReset] ⟨⟨[], 1, .armed⟩, [.selecting], ["\x7b\x7d"]⟩
      (List.replicate (2 ^ 64) 0) (by decide)
  · unfold windowCodes
    rw [List.foldl_append, foldl_windowStep_adds]
    have h2 : List.foldl windowStep [] [Action.start, Action.tickEmit, Action.tickReset] = [] := by
      decide
    rw [h2, List.nil_append, occurrences_replicate_read]
  · rw [foldl_addSyscall_get, occurrences_replicate_read]
    simp [mapGet?, mapIndex, wrapInt, intBits]

/-! ## The reset and the critical section (C5) -/

theorem foldl_addSyscall_ticker (resolve : Int → Option String) (codes : List Int)
    (sa : syscallAggregator) :
    (codes.foldl (addSyscall resolve) sa).ticker = sa.ticker ∧
    (codes.foldl (addSyscall resolve) sa).period = sa.period := by
  induction codes generalizing sa with
  | nil => exact ⟨rfl, rfl⟩
  | cons c t ih =>
    rw [List.foldl_cons]
    have h := ih (addSyscall resolve sa c)
    have h1 : (addSyscall resolve sa c).ticker = sa.ticker ∧
        (addSyscall resolve sa c).period = sa.period := by
      unfold addSyscall
      cases resolve c <;> exact ⟨rfl, rfl⟩
    exact ⟨h.1.trans h1.1, h.2.trans h1.2⟩

/-- C5 fails on the code: the loop resets `counts` after `emitJSON` has
released the mutex.  For every M, when M `addSyscall` calls for `read` run
between the `emitJSON` of a tick and its reset, that tick prints `{}` and so
does the next one: the M calls are in neither window.  In the ticker branch
the reset is event number 4, after the unlock, with the mutex free. -/
theorem reset_outside_lock_loses_calls (M : Nat) :
    (run sampleResolve goMarshal (initWorld ⟨[], 1, .armed⟩)
      ([.start, .tickEmit] ++ (List.replicate M 0).map Action.add ++
        [.tickReset, .tickEmit, .tickReset])).map World.stdout = some ["\x7b\x7d", "\x7b\x7d"] ∧
    (∀ (marshal : CountMap → Except String String) (sa : syscallAggregator),
      (tickBranch marshal sa).2[4]? = some Event.resetCounts ∧
      heldAt (tickBranch marshal sa).2 4 = false) := by
  constructor
  · rw [run_append, run_append]
    have h1 : run sampleResolve goMarshal (initWorld ⟨[], 1, .armed⟩) [.start, .tickEmit] =
        some ⟨⟨[], 1, .armed⟩, [.emitted], ["\x7b\x7d"]⟩ := by decide
    rw [h1]
    simp only [Option.bind]
    rw [run_adds]
    have ht := foldl_addSyscall_ticker sampleResolve (List.replicate M 0) ⟨[], 1, .armed⟩
    have hj : jsonMarshal [] = "\x7b\x7d" := by decide
    simp [run, step, advance, ht.1, emitJSON, goMarshal, printed, hj]
  · intro marshal sa
    unfold tickBranch emitJSON
    cases marshal sa.counts <;> simp [heldAt, heldAfter]

/-! ## Stopping (C6) -/

theorem advance_isSome (a b : LoopState) (l : List LoopState) :
    (advance a b l).isSome = true ↔ a ∈ l := by
  induction l with
  | nil => simp [advance]
  | cons g t ih =>
    by_cases h : g = a
    · simp [advance, h]
    · have h' : ¬ a = g := fun e => h e.symm
      simp [advance, h, h', ← ih]

theorem advance_eq_none (a b : LoopState) (l : List LoopState) (h : a ∉ l) :
    advance a b l = none := by
  have h1 := advance_isSome a b l
  cases hadv : advance a b l with
  | none => rfl
  | some ls =>
    rw [hadv] at h1
    exact absurd (h1.mp rfl) h

theorem stop_isSome (w : World) : (stop w).isSome = true ↔ LoopState.selecting ∈ w.loops := by
  rw [← advance_isSome .selecting .exited w.loops]
  unfold stop
  cases advance .selecting .exited w.loops <;> simp

theorem step_all_exited (resolve : Int → Option String)
    (marshal : CountMap → Except String String) (w w' : World) (a : Action)
    (h : ∀ g ∈ w.loops, g = .exited) (ha : a ≠ .start)
    (hs : step resolve marshal w a = some w') :
    (∀ g ∈ w'.loops, g = .exited) ∧ a ≠ .stop := by
  have hsel : LoopState.selecting ∉ w.loops := fun hm => by cases h _ hm
  have hemi : LoopState.emitted ∉ w.loops := fun hm => by cases h _ hm
  cases a with
  | start => exact absurd rfl ha
  | add nr =>
    simp only [step, Option.some.injEq] at hs
    subst hs
    exact ⟨h, by simp⟩
  | tickEmit => simp [step, advance_eq_none _ _ _ hsel] at hs
  | tickReset => simp [step, advance_eq_none _ _ _ hemi] at hs
  | stop => simp [step, stop, advance_eq_none _ _ _ hsel] at hs

theorem run_all_exited (resolve : Int → Option String)
    (marshal : CountMap → Except String String) (acts : List Action) (w w' : World)
    (h : ∀ g ∈ w.loops, g = .exited) (hns : Action.start ∉ acts)
    (hr : run resolve marshal w acts = some w') :
    (∀ g ∈ w'.loops, g = .exited) ∧ Action.stop ∉ acts := by
  induction acts generalizing w with
  | nil =>
    simp only [run, Option.some.injEq] at hr
    subst hr
    exact ⟨h, by simp⟩
  | cons a t ih =>
    simp only [List.mem_cons, not_or] at hns
    simp only [run] at hr
    cases hs : step resolve marshal w a with
    | none => rw [hs] at hr; cases hr
    | some w1 =>
      rw [hs] at hr
      have h1 := step_all_exited resolve marshal w w1 a h (fun e => hns.1 e.symm) hs
      have h2 := ih w1 h1.1 hns.2 hr
      refine ⟨h2.1, ?_⟩
      simp only [List.mem_cons, not_or]
      exact ⟨fun e => h1.2 e.symm, h2.2⟩

/-- C6, amended: `stop()` completes exactly when a goroutine spawned by
`start()` is waiting in its `select` (not before the first `start`, not while
the goroutine is between `emitJSON` and the reset, not after it has exited);
the receiving goroutine then stops the ticker and exits.  In a state where
every spawned goroutine has exited (or none was spawned) `stop()` cannot
complete, and as long as `start()` is not called again it stays that way
whatever else happens: no schedule without `start` from that state contains a
completed `stop`.  A new `start()` spawns a new receiver, after which a `stop()`
completes, from every state. -/
theorem stop_completes_only_while_running (resolve : Int → Option String)
    (marshal : CountMap → Except String String) (w : World) :
    ((step resolve marshal w .stop).isSome = true ↔ LoopState.selecting ∈ w.loops) ∧
    (∀ w', step resolve marshal w .stop = some w' →
      w'.sa.ticker = .stopped ∧ advance .selecting .exited w.loops = some w'.loops) ∧
    ((∀ g ∈ w.loops, g = .exited) →
      ∀ acts w', Action.start ∉ acts → run resolve marshal w acts = some w' →
        (∀ g ∈ w'.loops, g = .exited) ∧ step resolve marshal w' .stop = none ∧
          Action.stop ∉ acts) ∧
    (∃ w', run resolve marshal w [.start, .stop] = some w') := by
  refine ⟨stop_isSome w, ?_, ?_, ?_⟩
  · intro w' hs
    simp only [step, stop] at hs
    cases hadv : advance .selecting .exited w.loops with
    | none => rw [hadv] at hs; cases hs
    | some ls =>
      rw [hadv] at hs
      simp only [Option.some.injEq] at hs
      subst hs
      exact ⟨rfl, rfl⟩
  · intro h acts w' hns hr
    have h1 := run_all_exited resolve marshal acts w w' h hns hr
    have hsel : LoopState.selecting ∉ w'.loops := fun hm => by cases h1.1 _ hm
    refine ⟨h1.1, ?_, h1.2⟩
    simp [step, stop, advance_eq_none _ _ _ hsel]
  · have hmem : LoopState.selecting ∈ (start w).loops := by simp [start]
    have hsome := (stop_isSome (start w)).mpr hmem
    obtain ⟨w', hw'⟩ := Option.isSome_iff_exists.mp hsome
    exact ⟨w', by simp [run, step, hw']⟩

/-- Instance of `stop_completes_only_while_running`: a waiting goroutine
receives the stop; after that, one more `addSyscall` happens and `stop` stays
blocked. -/
theorem stop_completes_only_while_running_witness :
    step sampleResolve goMarshal ⟨⟨[], 1, .armed⟩, [.selecting], []⟩ .stop =
      some ⟨⟨[], 1, .stopped⟩, [.exited], []⟩ ∧
    (∀ g ∈ [LoopState.exited], g = .exited) ∧
    Action.start ∉ [Action.add 0] ∧
    run sampleResolve goMarshal ⟨⟨[], 1, .stopped⟩, [.exited], []⟩ [.add 0] =
      some ⟨⟨[("read", 1)], 1, .stopped⟩, [.exited], []⟩ ∧
    step sampleResolve goMarshal ⟨⟨[("read", 1)], 1, .stopped⟩, [.exited], []⟩ .stop = none ∧
    advance .selecting .exited [.selecting] = some [.exited] :=
  ⟨by decide, by decide, by decide, by decide,
    ((stop_completes_only_while_running sampleResolve goMarshal
      ⟨⟨[], 1, .stopped⟩, [.exited], []⟩).2.2.1 (by decide) [.add 0]
      ⟨⟨[("read", 1)], 1, .stopped⟩, [.exited], []⟩ (by decide) (by decide)).2.1,
    ((stop_completes_only_while_running sampleResolve goMarshal
      ⟨⟨[], 1, .armed⟩, [.selecting], []⟩).2.1
      ⟨⟨[], 1, .stopped⟩, [.exited], []⟩ (by decide)).2⟩

/-- C6 as stated fails: after `start` and one `stop` the task has exited, and
a second `stop` cannot complete. -/
theorem stop_after_stopped_counterexample :
    run sampleResolve goMarshal (initWorld ⟨[], 1, .armed⟩) [.start, .stop] =
      some ⟨⟨[], 1, .stopped⟩, [.exited], []⟩ ∧
    step sampleResolve goMarshal ⟨⟨[], 1, .stopped⟩, [.exited], []⟩ .stop = none ∧
    run sampleResolve goMarshal (initWorld ⟨[], 1, .armed⟩) [.start, .stop, .stop] = none := by
  decide

/-! ## Configuration (C7) -/

/-- C7 fails on the code for an unparseable flag: `main` prints the parse
error, does not construct or start the aggregator, and returns, so the process
ends with exit status 0. -/
theorem main_parse_error_exits_zero (parseDuration : String → Except String Int)
    (doRun : syscallAggregator → Except String Unit) (s err : String)
    (h : parseDuration s = .error err) :
    main parseDuration doRun (some s) =
      { stdout := ["Error parsing sampling interval: " ++ err], exitCode := 0,
        started := false, period := none, panicked := none } := by
  simp [main, h]

/-- Instance of `main_parse_error_exits_zero`: the flag value `abc`. -/
theorem main_parse_error_exits_zero_witness :
    sampleParseDuration "abc" = .error "time: invalid duration \"abc\"" ∧
    main sampleParseDuration sampleDo (some "abc") =
      { stdout := ["Error parsing sampling interval: time: invalid duration \"abc\""],
        exitCode := 0, started := false, period := none, panicked := none } :=
  ⟨by rfl,
    main_parse_error_exits_zero sampleParseDuration sampleDo "abc"
      "time: invalid duration \"abc\"" (by rfl)⟩

/-- A flag value that parses to a non-positive duration makes
`time.NewTicker` panic inside `newSyscallAggregator`: nothing is printed by
`main`, the aggregator is not started, the exit status is 2. -/
theorem main_nonpositive_panics (parseDuration : String → Except String Int)
    (doRun : syscallAggregator → Except String Unit) (s : String) (d : Int)
    (h : parseDuration s = .ok d) (hd : d ≤ 0) :
    main parseDuration doRun (some s) =
      { stdout := [], exitCode := 2, started := false, period := none,
        panicked := some "non-positive interval for NewTicker" } := by
  simp [main, h, newSyscallAggregator, hd]

/-- Without the flag the period is what `time.ParseDuration` returns for
`300s`, that is 300 seconds in nanoseconds. -/
theorem main_default_period (parseDuration : String → Except String Int)
    (doRun : syscallAggregator → Except String Unit)
    (h : parseDuration "300s" = .ok 300000000000) :
    (main parseDuration doRun none).started = true ∧
    (main parseDuration doRun none).period = some 300000000000 := by
  have hnew : newSyscallAggregator 300000000000 = .ok ⟨[], 300000000000, .armed⟩ := by
    simp [newSyscallAggregator]
  unfold main
  simp only [Option.getD, defaultSamplingInterval, h, hnew]
  cases doRun ⟨[], 300000000000, .armed⟩ <;> exact ⟨rfl, rfl⟩

end SyscallCount
